import Mathlib

/-!
Verification of the pyarallel parallel-execution library (`pyarallel/core.py`).

The development shallowly embeds the module's components:

* `RateLimit` / `TokenBucket` — the rate-limiting value object and the
  token-bucket pacing state (`core.py` lines 78–155).  Wall-clock times and
  rates are modelled as rationals; `time.time()` readings become explicit
  `now` arguments.  Python's `ZeroDivisionError` (raised by `1 / self.rate`
  when the rate is zero) is modelled with `Except Unit`.
* the executor registry `get_or_create_executor` and its weak-value cache
  (`core.py` lines 164–194), with the cache as an explicit association list
  and executors as values carrying an identity, a worker count and the
  `_shutdown` flag.
* the `parallel` decorator's `wrapper` (`core.py` lines 258–343), with
  Python values as an inductive `PyVal` universe, user functions as
  `PyVal → List PyVal → κ → Except ε PyVal` (item, extra positional
  arguments, keyword arguments), and an instrumentation `Trace` counting
  submitted tasks, direct calls and rate-limiter waits.
-/

namespace Pyarallel

/-- The `TimeUnit` literal type of `core.py`: "second", "minute", "hour". -/
inductive TimeUnit where
  | second
  | minute
  | hour
deriving DecidableEq, Repr

/-- The `multiplier` dictionary inside `RateLimit.per_second`. -/
def TimeUnit.multiplier : TimeUnit → ℚ
  | .second => 1
  | .minute => 60
  | .hour => 3600

/-- The `RateLimit` dataclass: `count` operations per `interval`. -/
structure RateLimit where
  count : ℚ
  interval : TimeUnit
deriving DecidableEq, Repr

/-- `RateLimit.per_second`: `self.count / multiplier[self.interval]`. -/
def RateLimit.per_second (rl : RateLimit) : ℚ :=
  rl.count / rl.interval.multiplier

/-- Constructing a `RateLimit`.  The dataclass generates a plain
`__init__` that stores the fields and performs no validation, so
construction always succeeds; the `Except` result records that the
constructor is a fallible Python call site that in fact never raises. -/
def mkRateLimit (c : ℚ) (i : TimeUnit) : Except Unit RateLimit :=
  .ok ⟨c, i⟩

/-- The mutable state of a `TokenBucket` (`core.py` lines 122–128).
The `lock` field is elided: every bucket method runs entirely under the
lock, so each call is one atomic step on this state. -/
structure TokenBucket where
  rate : ℚ
  capacity : ℚ
  tokens : ℚ
  last_update : ℚ
  next_allowed : ℚ
deriving DecidableEq, Repr

/-- `TokenBucket.__init__(rate_limit, capacity)`, with `now` the
`time.time()` reading.  `capacity or rate_limit.count` falls back to the
count when `capacity` is `None` or zero (falsy). -/
def TokenBucket.create (rl : RateLimit) (capacity : Option ℚ) (now : ℚ) :
    TokenBucket :=
  let cap : ℚ :=
    match capacity with
    | some c => if c = 0 then rl.count else c
    | none => rl.count
  { rate := rl.per_second
    capacity := cap
    tokens := cap
    last_update := now
    next_allowed := now }

/-- `TokenBucket.get_token` at wall-clock time `now`.  If `now` is before
`next_allowed` it returns `False` without touching the state; otherwise it
evaluates `1 / self.rate` (raising `ZeroDivisionError`, modelled as
`.error ()`, when the rate is zero) and advances `next_allowed`. -/
def TokenBucket.get_token (b : TokenBucket) (now : ℚ) :
    Except Unit (Bool × TokenBucket) :=
  if now < b.next_allowed then
    .ok (false, b)
  else if b.rate = 0 then
    .error ()
  else
    .ok (true,
      { b with
        next_allowed := max (b.next_allowed + 1 / b.rate) (now + 1 / b.rate) })

/-- `TokenBucket.wait_for_token` entered at wall-clock time `now`.  The
loop sleeps until the first instant at or after `next_allowed`, so the
grant happens at `max now next_allowed`; at that instant it evaluates
`1 / self.rate` (raising `ZeroDivisionError` when the rate is zero) and
advances `next_allowed`.  The returned rational is the grant time. -/
def TokenBucket.wait_for_token (b : TokenBucket) (now : ℚ) :
    Except Unit (ℚ × TokenBucket) :=
  if b.rate = 0 then
    .error ()
  else
    let grant := max now b.next_allowed
    .ok (grant,
      { b with
        next_allowed :=
          max (b.next_allowed + 1 / b.rate) (grant + 1 / b.rate) })

/-- One client call on a bucket: `get_token` or `wait_for_token`, tagged
with the wall-clock time at which the call is made. -/
inductive BucketOp where
  | get (t : ℚ)
  | wait (t : ℚ)
deriving DecidableEq, Repr

/-- The observable outcome of one bucket call: the boolean returned by
`get_token`, the grant time of `wait_for_token`, or a raised
`ZeroDivisionError`.  A raising call leaves the state unchanged (the
division is evaluated before any assignment to `next_allowed`). -/
inductive BucketOut where
  | got (granted : Bool)
  | waited (grantTime : ℚ)
  | raised
deriving DecidableEq, Repr

/-- Run one bucket call, producing its observable outcome and the
post-state. -/
def TokenBucket.step (b : TokenBucket) : BucketOp → BucketOut × TokenBucket
  | .get t =>
    match b.get_token t with
    | .ok (g, b') => (.got g, b')
    | .error _ => (.raised, b)
  | .wait t =>
    match b.wait_for_token t with
    | .ok (g, b') => (.waited g, b')
    | .error _ => (.raised, b)

/-- Run a sequence of bucket calls, collecting every outcome and the final
state. -/
def TokenBucket.run (b : TokenBucket) : List BucketOp → List BucketOut × TokenBucket
  | [] => ([], b)
  | op :: ops =>
    let s := b.step op
    let r := s.2.run ops
    (s.1 :: r.1, r.2)

/-! ### Executor registry (`get_or_create_executor`, `core.py` 164–194) -/

/-- The `ExecutorType` literal type: "thread" or "process". -/
inductive ExecutorType where
  | thread
  | process
deriving DecidableEq, Repr

/-- The cache key `(executor_type, max_workers)`. -/
abbrev PoolKey := ExecutorType × Nat

/-- An executor object.  `id` is the object identity (two executors
created by distinct constructor calls are distinct objects);
`max_workers` is the worker count it was constructed with; `shutdownFlag`
is the `_shutdown` attribute checked by the registry. -/
structure Executor where
  id : Nat
  max_workers : Nat
  shutdownFlag : Bool
deriving DecidableEq, Repr

/-- `_EXECUTOR_CACHE.get(key)` on the association-list model of the
weak-value dictionary. -/
def cacheGet (k : PoolKey) : List (PoolKey × Executor) → Option Executor
  | [] => none
  | (k', e) :: rest => if k' = k then some e else cacheGet k rest

/-- `_EXECUTOR_CACHE[key] = executor`: replace the entry for `k`, or
append one. -/
def cacheSet (k : PoolKey) (e : Executor) :
    List (PoolKey × Executor) → List (PoolKey × Executor)
  | [] => [(k, e)]
  | (k', e') :: rest =>
    if k' = k then (k, e) :: rest else (k', e') :: cacheSet k e rest

/-- The process-wide registry state: the weak-value cache plus a supply
of fresh object identities (`nextId` has never been used by any executor
in a well-formed state). -/
structure RegistryState where
  cache : List (PoolKey × Executor)
  nextId : Nat
deriving DecidableEq, Repr

/-- `get_or_create_executor(executor_type, max_workers, prewarm)`.

Returns the executor handed to the caller, the number of no-op warm-up
tasks that were submitted and waited on before returning (the
`executor.submit(lambda: None)` loop runs `max_workers` times and
`f.result()` blocks on each, so every counted task has completed by the
time the function returns), and the registry state afterwards. -/
def get_or_create_executor (et : ExecutorType) (mw : Nat) (prewarm : Bool)
    (s : RegistryState) : Executor × Nat × RegistryState :=
  let k : PoolKey := (et, mw)
  let fresh : Executor := ⟨s.nextId, mw, false⟩
  let created : Executor × Nat × RegistryState :=
    (fresh, if prewarm then mw else 0,
      ⟨cacheSet k fresh s.cache, s.nextId + 1⟩)
  match cacheGet k s.cache with
  | some e => if e.shutdownFlag then created else (e, 0, s)
  | none => created

/-- Mark the entry for `k` as shut down. -/
def cacheShutdown (k : PoolKey) :
    List (PoolKey × Executor) → List (PoolKey × Executor)
  | [] => []
  | (k', e) :: rest =>
    if k' = k then (k', { e with shutdownFlag := true }) :: cacheShutdown k rest
    else (k', e) :: cacheShutdown k rest

/-- Drop the entry for `k`. -/
def cacheRemove (k : PoolKey) :
    List (PoolKey × Executor) → List (PoolKey × Executor)
  | [] => []
  | (k', e) :: rest =>
    if k' = k then cacheRemove k rest else (k', e) :: cacheRemove k rest

/-- External event: the cached executor for `k` is shut down
(`executor.shutdown()` sets `_shutdown` on the object the cache points
to). -/
def shutdownKey (k : PoolKey) (s : RegistryState) : RegistryState :=
  { s with cache := cacheShutdown k s.cache }

/-- External event: the weak reference for `k` is reclaimed (the last
strong reference to the executor dropped, so the weak-value dictionary
loses the entry). -/
def reclaimKey (k : PoolKey) (s : RegistryState) : RegistryState :=
  { s with cache := cacheRemove k s.cache }

/-- Well-formedness: every cached executor's identity was drawn from the
fresh-identity supply. -/
def RegistryWF (s : RegistryState) : Prop :=
  ∀ p ∈ s.cache, p.2.id < s.nextId

/-! ### The `parallel` decorator's wrapper (`core.py` 258–343) -/

/-- A universe of Python values, enough to express the wrapper's
`isinstance(x, (list, tuple))` call-shape test: strings and bytes are
distinct constructors from lists and tuples. -/
inductive PyVal where
  | none
  | int (n : Int)
  | str (s : String)
  | bytes (bs : List Nat)
  | bool (b : Bool)
  | list (xs : List PyVal)
  | tuple (xs : List PyVal)

/-- `isinstance(x, (list, tuple))`. -/
def PyVal.isListOrTuple : PyVal → Bool
  | .list _ => true
  | .tuple _ => true
  | _ => false

/-- The ordered items of a list or tuple value (unused on other
constructors, which take the single-item path). -/
def PyVal.seqItems : PyVal → List PyVal
  | .list xs => xs
  | .tuple xs => xs
  | _ => []

/-- Instrumentation of one wrapper call: tasks submitted to the executor,
direct (non-pool) invocations of the wrapped function, and
`wait_for_token` calls on the rate limiter. -/
structure Trace where
  submitted : Nat
  directCalls : Nat
  rlWaits : Nat
deriving DecidableEq, Repr

/-- The result-collection loop (`core.py` 330–336 plus the surrounding
`try`): awaiting each future in submission order, writing a resolved
value into the pre-sized slot list at its original index, and propagating
the first exception observed.  Each future is paired with its original
index; its `Except` value is what `future.result()` returns or raises. -/
def awaitFutures {ε : Type} :
    List (Nat × Except ε PyVal) → List PyVal → Except ε (List PyVal)
  | [], slots => .ok slots
  | (i, r) :: rest, slots =>
    match r with
    | .error e => .error e
    | .ok v => awaitFutures rest (slots.set i v)

/-- The `wrapper` closure produced by `parallel` for a plain function
(`items_arg_index = 0`).  `func` takes the item, the remaining positional
arguments and the keyword arguments and returns the Python result or the
exception it raised.  `hasRateLimit` records whether a rate limit was
configured.  The wrapper returns the Python-level outcome (a `PyVal.list`
of results, or the propagated exception) together with the
instrumentation `Trace`. -/
def wrapper {κ ε : Type} (func : PyVal → List PyVal → κ → Except ε PyVal)
    (hasRateLimit : Bool) (arg : PyVal) (otherArgs : List PyVal) (kwargs : κ) :
    Except ε PyVal × Trace :=
  if arg.isListOrTuple = false then
    match func arg otherArgs kwargs with
    | .error e => (.error e, ⟨0, 1, 0⟩)
    | .ok v => (.ok (.list [v]), ⟨0, 1, 0⟩)
  else
    let items := arg.seqItems
    let futures := items.enum.map fun p => (p.1, func p.2 otherArgs kwargs)
    let tr : Trace :=
      ⟨items.length, 0, if hasRateLimit then items.length else 0⟩
    match awaitFutures futures (List.replicate items.length PyVal.none) with
    | .error e => (.error e, tr)
    | .ok results => (.ok (.list results), tr)

/-- The payload of a resolved future (`none` is unreachable on futures
that carry no exception; it stands for nothing in particular). -/
def okVal {ε : Type} : Except ε PyVal → PyVal
  | .ok v => v
  | .error _ => .none

/-- Specification-side description of the result-collection loop on a
batch with no failures: each `(index, value)` write lands in the slot at
its original index, whatever order the writes arrive in.  Comparing
`awaitFutures` against `fillSlots` over arbitrary permutations of the
future list expresses independence from completion order. -/
def fillSlots {ε : Type} (futs : List (Nat × Except ε PyVal))
    (slots : List PyVal) : List PyVal :=
  futs.foldl (fun acc p => acc.set p.1 (okVal p.2)) slots

/-! ### Token-bucket lemmas -/

lemma TokenBucket.get_token_denied (b : TokenBucket) (now : ℚ)
    (h : now < b.next_allowed) : b.get_token now = .ok (false, b) := by
  simp [TokenBucket.get_token, h]

lemma TokenBucket.get_token_granted (b : TokenBucket) (now : ℚ)
    (h1 : b.next_allowed ≤ now) (h2 : b.rate ≠ 0) :
    b.get_token now =
      .ok (true, { b with next_allowed := max b.next_allowed now + 1 / b.rate }) := by
  rw [TokenBucket.get_token, if_neg (not_lt.mpr h1), if_neg h2,
    max_add_add_right]

lemma TokenBucket.wait_granted (b : TokenBucket) (now : ℚ) (h2 : b.rate ≠ 0) :
    b.wait_for_token now =
      .ok (max now b.next_allowed,
        { b with next_allowed := max b.next_allowed now + 1 / b.rate }) := by
  rw [TokenBucket.wait_for_token, if_neg h2]
  have : max (b.next_allowed + 1 / b.rate) (max now b.next_allowed + 1 / b.rate)
      = max b.next_allowed now + 1 / b.rate := by
    rw [max_add_add_right, max_comm now b.next_allowed, ← max_assoc,
      max_self]
  simp only [this]

lemma TokenBucket.step_rate (b : TokenBucket) (op : BucketOp) :
    (b.step op).2.rate = b.rate := by
  rcases op with t | t
  · by_cases h1 : t < b.next_allowed
    · simp [TokenBucket.step, TokenBucket.get_token_denied _ _ h1]
    · by_cases h2 : b.rate = 0
      · simp [TokenBucket.step, TokenBucket.get_token, h1, h2]
      · simp [TokenBucket.step,
          TokenBucket.get_token_granted _ _ (not_lt.mp h1) h2]
  · by_cases h2 : b.rate = 0
    · simp [TokenBucket.step, TokenBucket.wait_for_token, h2]
    · simp [TokenBucket.step, TokenBucket.wait_granted _ _ h2]

lemma TokenBucket.step_next_allowed_mono (b : TokenBucket) (op : BucketOp)
    (hr : 0 < b.rate) : b.next_allowed ≤ (b.step op).2.next_allowed := by
  have hr' : b.rate ≠ 0 := ne_of_gt hr
  have hd : 0 < 1 / b.rate := by positivity
  rcases op with t | t
  · by_cases h1 : t < b.next_allowed
    · simp [TokenBucket.step, TokenBucket.get_token_denied _ _ h1]
    · simp only [TokenBucket.step,
        TokenBucket.get_token_granted _ _ (not_lt.mp h1) hr']
      have := le_max_left b.next_allowed t
      linarith
  · simp only [TokenBucket.step, TokenBucket.wait_granted _ _ hr']
    have := le_max_left b.next_allowed t
    linarith

lemma TokenBucket.run_next_allowed_mono (b : TokenBucket) (ops : List BucketOp)
    (hr : 0 < b.rate) : b.next_allowed ≤ (b.run ops).2.next_allowed := by
  induction ops generalizing b with
  | nil => simp [TokenBucket.run]
  | cons op ops ih =>
    have h1 := TokenBucket.step_next_allowed_mono b op hr
    have h2 := ih (b.step op).2 (by rw [TokenBucket.step_rate]; exact hr)
    simp only [TokenBucket.run]
    exact h1.trans h2

lemma TokenBucket.get_token_zero (b : TokenBucket) (now : ℚ)
    (h1 : b.next_allowed ≤ now) (h2 : b.rate = 0) :
    b.get_token now = .error () := by
  rw [TokenBucket.get_token, if_neg (not_lt.mpr h1), if_pos h2]

lemma TokenBucket.wait_zero (b : TokenBucket) (now : ℚ) (h2 : b.rate = 0) :
    b.wait_for_token now = .error () := by
  rw [TokenBucket.wait_for_token, if_pos h2]

lemma TokenBucket.step_congr (b1 b2 : TokenBucket) (op : BucketOp)
    (hr : b1.rate = b2.rate) (hn : b1.next_allowed = b2.next_allowed) :
    (b1.step op).1 = (b2.step op).1 ∧
    (b1.step op).2.rate = (b2.step op).2.rate ∧
    (b1.step op).2.next_allowed = (b2.step op).2.next_allowed := by
  rcases op with t | t
  · by_cases h1 : t < b1.next_allowed
    · have h1' : t < b2.next_allowed := by rw [← hn]; exact h1
      rw [TokenBucket.step, TokenBucket.step,
        TokenBucket.get_token_denied _ _ h1,
        TokenBucket.get_token_denied _ _ h1']
      exact ⟨rfl, hr, hn⟩
    · have h1' : b2.next_allowed ≤ t := by rw [← hn]; exact not_lt.mp h1
      by_cases h2 : b1.rate = 0
      · have h2' : b2.rate = 0 := by rw [← hr]; exact h2
        rw [TokenBucket.step, TokenBucket.step,
          TokenBucket.get_token_zero _ _ (not_lt.mp h1) h2,
          TokenBucket.get_token_zero _ _ h1' h2']
        exact ⟨rfl, hr, hn⟩
      · have h2' : ¬b2.rate = 0 := by rw [← hr]; exact h2
        rw [TokenBucket.step, TokenBucket.step,
          TokenBucket.get_token_granted _ _ (not_lt.mp h1) h2,
          TokenBucket.get_token_granted _ _ h1' h2']
        refine ⟨rfl, hr, ?_⟩
        simp only [hr, hn]
  · by_cases h2 : b1.rate = 0
    · have h2' : b2.rate = 0 := by rw [← hr]; exact h2
      rw [TokenBucket.step, TokenBucket.step, TokenBucket.wait_zero _ _ h2,
        TokenBucket.wait_zero _ _ h2']
      exact ⟨rfl, hr, hn⟩
    · have h2' : ¬b2.rate = 0 := by rw [← hr]; exact h2
      rw [TokenBucket.step, TokenBucket.step,
        TokenBucket.wait_granted _ _ h2, TokenBucket.wait_granted _ _ h2']
      refine ⟨by rw [hn], hr, ?_⟩
      simp only [hr, hn]

lemma TokenBucket.run_congr (b1 b2 : TokenBucket) (ops : List BucketOp)
    (hr : b1.rate = b2.rate) (hn : b1.next_allowed = b2.next_allowed) :
    (b1.run ops).1 = (b2.run ops).1 ∧
    (b1.run ops).2.rate = (b2.run ops).2.rate ∧
    (b1.run ops).2.next_allowed = (b2.run ops).2.next_allowed := by
  induction ops generalizing b1 b2 with
  | nil => exact ⟨rfl, hr, hn⟩
  | cons op ops ih =>
    obtain ⟨ho, hr', hn'⟩ := TokenBucket.step_congr b1 b2 op hr hn
    obtain ⟨ho', hr'', hn''⟩ := ih (b1.step op).2 (b2.step op).2 hr' hn'
    simp only [TokenBucket.run]
    exact ⟨by rw [ho, ho'], hr'', hn''⟩

/-! ### Claim theorems about `RateLimit` and `TokenBucket` -/

/-- Claim C3 counterexample: `RateLimit(0)` constructs successfully (the
dataclass performs no validation), and the zero-rate failure is deferred
to execution time — the first `get_token` call at a time at or past
`next_allowed`, and every `wait_for_token` call, on a `TokenBucket` built
from it raise `ZeroDivisionError`.  This refutes the claim that a
non-positive rate raises synchronously at construction and that no
operation on a constructed `RateLimit`'s bucket can fail. -/
theorem C3_counterexample :
    mkRateLimit 0 TimeUnit.second = .ok ⟨0, TimeUnit.second⟩ ∧
    (TokenBucket.create ⟨0, TimeUnit.second⟩ none 0).get_token 0 =
      .error () ∧
    (TokenBucket.create ⟨0, TimeUnit.second⟩ none 0).wait_for_token 0 =
      .error () := by
  refine ⟨rfl, ?_, ?_⟩
  · exact TokenBucket.get_token_zero _ _ (le_refl 0) (by
      show RateLimit.per_second ⟨0, TimeUnit.second⟩ = 0
      simp [RateLimit.per_second])
  · exact TokenBucket.wait_zero _ _ (by
      show RateLimit.per_second ⟨0, TimeUnit.second⟩ = 0
      simp [RateLimit.per_second])

/-- Claim C3 (amended): constructing a `RateLimit` never raises, whatever
the count; a zero count makes every granting `get_token` attempt and every
`wait_for_token` call on a bucket built from it raise `ZeroDivisionError`
at execution time, while a nonzero (including negative) count never causes
either operation to raise. -/
theorem C3_construction_total (c : ℚ) (i : TimeUnit) (cap : Option ℚ)
    (t0 now : ℚ) :
    mkRateLimit c i = .ok ⟨c, i⟩ ∧
    (c = 0 → t0 ≤ now →
      (TokenBucket.create ⟨c, i⟩ cap t0).get_token now = .error ()) ∧
    (c = 0 →
      (TokenBucket.create ⟨c, i⟩ cap t0).wait_for_token now = .error ()) ∧
    (c ≠ 0 →
      (∃ r, (TokenBucket.create ⟨c, i⟩ cap t0).get_token now = .ok r) ∧
      (∃ r, (TokenBucket.create ⟨c, i⟩ cap t0).wait_for_token now = .ok r)) := by
  have hm : TimeUnit.multiplier i ≠ 0 := by
    cases i <;> norm_num [TimeUnit.multiplier]
  have hrate : (TokenBucket.create ⟨c, i⟩ cap t0).rate =
      c / TimeUnit.multiplier i := rfl
  have hna : (TokenBucket.create ⟨c, i⟩ cap t0).next_allowed = t0 := rfl
  refine ⟨rfl, ?_, ?_, ?_⟩
  · intro hc hle
    exact TokenBucket.get_token_zero _ _ (hna ▸ hle)
      (by rw [hrate, hc, zero_div])
  · intro hc
    exact TokenBucket.wait_zero _ _ (by rw [hrate, hc, zero_div])
  · intro hc
    have hr0 : (TokenBucket.create ⟨c, i⟩ cap t0).rate ≠ 0 := by
      rw [hrate]; exact div_ne_zero hc hm
    refine ⟨?_, ⟨_, TokenBucket.wait_granted _ _ hr0⟩⟩
    by_cases h1 : now < (TokenBucket.create ⟨c, i⟩ cap t0).next_allowed
    · exact ⟨_, TokenBucket.get_token_denied _ _ h1⟩
    · exact ⟨_, TokenBucket.get_token_granted _ _ (not_lt.mp h1) hr0⟩

/-- Claim C3 witness: at count `0` the bucket's `wait_for_token` raises at
execution time; at count `-5` construction and both operations go through
without raising. -/
theorem C3_witness :
    (TokenBucket.create ⟨0, TimeUnit.second⟩ none 0).wait_for_token 7 =
      .error () ∧
    (∃ r, (TokenBucket.create ⟨-5, TimeUnit.second⟩ none 0).get_token 7 =
      .ok r) :=
  ⟨(C3_construction_total 0 TimeUnit.second none 0 7).2.2.1 rfl,
   ((C3_construction_total (-5) TimeUnit.second none 0 7).2.2.2
      (by norm_num)).1⟩

/-- Claim C5 counterexample: a bucket with rate `1` and `next_allowed = 0`
grants a token at time `5` and moves `next_allowed` to `6`: the granted
permit advances `next_allowed` by `6`, not by `1/ratePerSecond = 1`. -/
theorem C5_counterexample :
    ((⟨1, 1, 1, 0, 0⟩ : TokenBucket).get_token 5 =
      .ok (true, (⟨1, 1, 1, 0, 6⟩ : TokenBucket))) ∧
    (6 : ℚ) - 0 ≠ 1 / (1 : ℚ) := by
  constructor
  · rw [TokenBucket.get_token_granted _ _ (by norm_num) (by norm_num)]
    norm_num
  · norm_num

/-- Claim C5 (amended): for a bucket with positive rate, `next_allowed`
is monotonically non-decreasing across any sequence of `get_token` and
`wait_for_token` calls, and each granted permit sets `next_allowed` to
`max next_allowed now + 1/rate` — an advance of at least (not exactly)
`1/ratePerSecond`. -/
theorem C5_next_allowed_monotone (b : TokenBucket) (hr : 0 < b.rate) :
    (∀ now b', b.get_token now = .ok (true, b') →
      b'.next_allowed = max b.next_allowed now + 1 / b.rate ∧
      b.next_allowed + 1 / b.rate ≤ b'.next_allowed) ∧
    (∀ now g b', b.wait_for_token now = .ok (g, b') →
      b'.next_allowed = max b.next_allowed now + 1 / b.rate ∧
      b.next_allowed + 1 / b.rate ≤ b'.next_allowed) ∧
    (∀ ops, b.next_allowed ≤ (b.run ops).2.next_allowed) := by
  have hne : b.rate ≠ 0 := ne_of_gt hr
  refine ⟨?_, ?_, fun ops => TokenBucket.run_next_allowed_mono b ops hr⟩
  · intro now b' h
    by_cases h1 : now < b.next_allowed
    · rw [TokenBucket.get_token_denied _ _ h1] at h
      simp at h
    · rw [TokenBucket.get_token_granted _ _ (not_lt.mp h1) hne] at h
      simp only [Except.ok.injEq, Prod.mk.injEq, true_and] at h
      subst h
      exact ⟨rfl, add_le_add_right (le_max_left _ _) _⟩
  · intro now g b' h
    rw [TokenBucket.wait_granted _ _ hne] at h
    simp only [Except.ok.injEq, Prod.mk.injEq] at h
    rw [← h.2]
    exact ⟨rfl, add_le_add_right (le_max_left _ _) _⟩

/-- Claim C5 witness: a concrete positive-rate bucket stays monotone over
a concrete call sequence. -/
theorem C5_witness :
    (⟨1, 1, 1, 0, 0⟩ : TokenBucket).next_allowed ≤
      ((⟨1, 1, 1, 0, 0⟩ : TokenBucket).run
        [BucketOp.get 5, BucketOp.wait 2]).2.next_allowed :=
  (C5_next_allowed_monotone ⟨1, 1, 1, 0, 0⟩ (by norm_num)).2.2
    [BucketOp.get 5, BucketOp.wait 2]

/-- Claim C6: the `capacity` argument of `TokenBucket` has no effect on
admission: two buckets built from the same `RateLimit` at the same time
with any two capacities produce identical outcomes and identical
`next_allowed` for every sequence of `get_token`/`wait_for_token` calls
made at the same times. -/
theorem C6_capacity_irrelevant (rl : RateLimit) (cap1 cap2 : Option ℚ)
    (t0 : ℚ) (ops : List BucketOp) :
    ((TokenBucket.create rl cap1 t0).run ops).1 =
      ((TokenBucket.create rl cap2 t0).run ops).1 ∧
    ((TokenBucket.create rl cap1 t0).run ops).2.next_allowed =
      ((TokenBucket.create rl cap2 t0).run ops).2.next_allowed := by
  obtain ⟨h1, _, h3⟩ := TokenBucket.run_congr (TokenBucket.create rl cap1 t0)
    (TokenBucket.create rl cap2 t0) ops rfl rfl
  exact ⟨h1, h3⟩

/-- Claim C10 counterexample: on a zero-rate bucket whose `next_allowed`
has been reached, `get_token` raises `ZeroDivisionError` instead of
returning `True`, refuting the unconditional "whenever now is at or after
next_allowed it returns True". -/
theorem C10_counterexample :
    (TokenBucket.create ⟨0, TimeUnit.second⟩ none 0).next_allowed ≤ 0 ∧
    (TokenBucket.create ⟨0, TimeUnit.second⟩ none 0).get_token 0 =
      .error () := by
  refine ⟨le_refl 0, ?_⟩
  exact TokenBucket.get_token_zero _ _ (le_refl 0) (by
    show RateLimit.per_second ⟨0, TimeUnit.second⟩ = 0
    simp [RateLimit.per_second])

/-- Claim C10 (amended): `get_token` called before `next_allowed` returns
`False` with the entire bucket state (all five fields) unchanged; called
at or after `next_allowed` with a nonzero rate it returns `True`,
advancing only `next_allowed` (with a zero rate it raises instead).  The
function never waits: each call is a single atomic test-and-update. -/
theorem C10_denial_atomic (b : TokenBucket) (now : ℚ) :
    (now < b.next_allowed → b.get_token now = .ok (false, b)) ∧
    (b.next_allowed ≤ now → b.rate ≠ 0 →
      b.get_token now = .ok (true,
        { b with next_allowed := max b.next_allowed now + 1 / b.rate })) :=
  ⟨fun h => TokenBucket.get_token_denied b now h,
   fun h1 h2 => TokenBucket.get_token_granted b now h1 h2⟩

/-- Claim C10 witness: a concrete denial leaves the state untouched and a
concrete grant returns `True`. -/
theorem C10_witness :
    ((⟨1, 1, 1, 0, 5⟩ : TokenBucket).get_token 3 =
      .ok (false, (⟨1, 1, 1, 0, 5⟩ : TokenBucket))) ∧
    ((⟨1, 1, 1, 0, 5⟩ : TokenBucket).get_token 6 =
      .ok (true, (⟨1, 1, 1, 0, 7⟩ : TokenBucket))) := by
  constructor
  · exact (C10_denial_atomic ⟨1, 1, 1, 0, 5⟩ 3).1 (by norm_num)
  · rw [(C10_denial_atomic ⟨1, 1, 1, 0, 5⟩ 6).2 (by norm_num) (by norm_num)]
    norm_num

/-! ### Registry lemmas -/

lemma cacheGet_cacheSet_self (k : PoolKey) (e : Executor)
    (c : List (PoolKey × Executor)) : cacheGet k (cacheSet k e c) = some e := by
  induction c with
  | nil => simp [cacheSet, cacheGet]
  | cons p rest ih =>
    by_cases h : p.1 = k
    · simp [cacheSet, cacheGet, h]
    · simpa [cacheSet, cacheGet, h] using ih

lemma cacheGet_mem (k : PoolKey) (e : Executor)
    (c : List (PoolKey × Executor)) (h : cacheGet k c = some e) :
    (k, e) ∈ c := by
  induction c with
  | nil => simp [cacheGet] at h
  | cons p rest ih =>
    rcases p with ⟨k', e'⟩
    by_cases hk : k' = k
    · rw [cacheGet, if_pos hk] at h
      subst hk
      obtain rfl : e' = e := by injection h
      exact List.mem_cons_self _ _
    · rw [cacheGet, if_neg hk] at h
      exact List.mem_cons_of_mem _ (ih h)

lemma mem_cacheSet (k : PoolKey) (e : Executor) (p : PoolKey × Executor)
    (c : List (PoolKey × Executor)) (h : p ∈ cacheSet k e c) :
    p = (k, e) ∨ p ∈ c := by
  induction c with
  | nil => simpa [cacheSet] using h
  | cons q rest ih =>
    by_cases hq : q.1 = k
    · rw [cacheSet, if_pos hq] at h
      rcases List.mem_cons.mp h with h | h
      · exact Or.inl h
      · exact Or.inr (List.mem_cons_of_mem _ h)
    · rw [cacheSet, if_neg hq] at h
      rcases List.mem_cons.mp h with h | h
      · exact Or.inr (h ▸ List.mem_cons_self _ _)
      · rcases ih h with h | h
        · exact Or.inl h
        · exact Or.inr (List.mem_cons_of_mem _ h)

lemma cacheGet_cacheShutdown (k : PoolKey) (c : List (PoolKey × Executor)) :
    cacheGet k (cacheShutdown k c) =
      (cacheGet k c).map fun e => { e with shutdownFlag := true } := by
  induction c with
  | nil => rfl
  | cons q rest ih =>
    rcases q with ⟨k', e'⟩
    by_cases h : k' = k
    · rw [cacheShutdown, if_pos h, cacheGet, if_pos h, cacheGet, if_pos h]
      rfl
    · rw [cacheShutdown, if_neg h, cacheGet, if_neg h, cacheGet, if_neg h, ih]

lemma cacheGet_shutdownKey (k : PoolKey) (s : RegistryState) :
    cacheGet k (shutdownKey k s).cache =
      (cacheGet k s.cache).map fun e => { e with shutdownFlag := true } :=
  cacheGet_cacheShutdown k s.cache

lemma cacheGet_cacheRemove (k : PoolKey) (c : List (PoolKey × Executor)) :
    cacheGet k (cacheRemove k c) = none := by
  induction c with
  | nil => rfl
  | cons q rest ih =>
    rcases q with ⟨k', e'⟩
    by_cases h : k' = k
    · rw [cacheRemove, if_pos h, ih]
    · rw [cacheRemove, if_neg h, cacheGet, if_neg h, ih]

lemma cacheGet_reclaimKey (k : PoolKey) (s : RegistryState) :
    cacheGet k (reclaimKey k s).cache = none :=
  cacheGet_cacheRemove k s.cache

lemma get_or_create_cached (et : ExecutorType) (mw : Nat) (p : Bool)
    (s : RegistryState) (e : Executor)
    (hc : cacheGet (et, mw) s.cache = some e) (hf : e.shutdownFlag = false) :
    get_or_create_executor et mw p s = (e, 0, s) := by
  unfold get_or_create_executor
  simp [hc, hf]

lemma get_or_create_fresh_of_none (et : ExecutorType) (mw : Nat) (p : Bool)
    (s : RegistryState) (hc : cacheGet (et, mw) s.cache = none) :
    get_or_create_executor et mw p s =
      (⟨s.nextId, mw, false⟩, if p then mw else 0,
        ⟨cacheSet (et, mw) ⟨s.nextId, mw, false⟩ s.cache, s.nextId + 1⟩) := by
  unfold get_or_create_executor
  simp [hc]

lemma get_or_create_fresh_of_shutdown (et : ExecutorType) (mw : Nat) (p : Bool)
    (s : RegistryState) (e : Executor)
    (hc : cacheGet (et, mw) s.cache = some e) (hf : e.shutdownFlag = true) :
    get_or_create_executor et mw p s =
      (⟨s.nextId, mw, false⟩, if p then mw else 0,
        ⟨cacheSet (et, mw) ⟨s.nextId, mw, false⟩ s.cache, s.nextId + 1⟩) := by
  unfold get_or_create_executor
  simp [hc, hf]

lemma registryWF_after_set (s : RegistryState) (hWF : RegistryWF s)
    (k : PoolKey) (mw : Nat) :
    RegistryWF ⟨cacheSet k ⟨s.nextId, mw, false⟩ s.cache, s.nextId + 1⟩ := by
  intro q hq
  rcases mem_cacheSet _ _ _ _ hq with h | h
  · rw [h]; exact Nat.lt_succ_self _
  · exact Nat.lt_succ_of_lt (hWF q h)

lemma get_or_create_spec (et : ExecutorType) (mw : Nat) (p : Bool)
    (s : RegistryState) (hWF : RegistryWF s) :
    cacheGet (et, mw) (get_or_create_executor et mw p s).2.2.cache =
      some (get_or_create_executor et mw p s).1 ∧
    (get_or_create_executor et mw p s).1.shutdownFlag = false ∧
    RegistryWF (get_or_create_executor et mw p s).2.2 ∧
    (get_or_create_executor et mw p s).1.id <
      (get_or_create_executor et mw p s).2.2.nextId := by
  rcases hc : cacheGet (et, mw) s.cache with _ | e
  · rw [get_or_create_fresh_of_none et mw p s hc]
    exact ⟨cacheGet_cacheSet_self _ _ _, rfl,
      registryWF_after_set s hWF _ mw, Nat.lt_succ_self _⟩
  · rcases hsf : e.shutdownFlag with _ | _
    · rw [get_or_create_cached et mw p s e hc hsf]
      exact ⟨hc, hsf, hWF, hWF _ (cacheGet_mem _ _ _ hc)⟩
    · rw [get_or_create_fresh_of_shutdown et mw p s e hc hsf]
      exact ⟨cacheGet_cacheSet_self _ _ _, rfl,
        registryWF_after_set s hWF _ mw, Nat.lt_succ_self _⟩

/-! ### Claim theorems about the executor registry -/

/-- Claim C7: a second `get_or_create_executor` call with the same
`(executor_type, max_workers)` key returns the very executor instance the
first call returned, with no warm-up and no state change; if the cached
executor is shut down or its weak reference reclaimed in between, the next
call instead creates a fresh executor (a different instance) with exactly
`max_workers` workers and caches it under that key. -/
theorem C7_pool_reuse (et : ExecutorType) (mw : Nat) (p1 p2 p3 p4 : Bool)
    (s : RegistryState) (hWF : RegistryWF s) (e1 : Executor) (w1 : Nat)
    (s1 : RegistryState)
    (h1 : get_or_create_executor et mw p1 s = (e1, w1, s1)) :
    get_or_create_executor et mw p2 s1 = (e1, 0, s1) ∧
    (∀ e3 w3 s3,
      get_or_create_executor et mw p3 (shutdownKey (et, mw) s1) =
        (e3, w3, s3) →
      e3.max_workers = mw ∧ e3.id ≠ e1.id ∧ e3.shutdownFlag = false ∧
      cacheGet (et, mw) s3.cache = some e3) ∧
    (∀ e4 w4 s4,
      get_or_create_executor et mw p4 (reclaimKey (et, mw) s1) =
        (e4, w4, s4) →
      e4.max_workers = mw ∧ e4.id ≠ e1.id ∧
      cacheGet (et, mw) s4.cache = some e4) := by
  have hs := get_or_create_spec et mw p1 s hWF
  rw [h1] at hs
  obtain ⟨hc1, hf1, hWF1, hid1⟩ := hs
  refine ⟨get_or_create_cached et mw p2 s1 e1 hc1 hf1, ?_, ?_⟩
  · intro e3 w3 s3 h3
    have hc2 : cacheGet (et, mw) (shutdownKey (et, mw) s1).cache =
        some { e1 with shutdownFlag := true } := by
      rw [cacheGet_shutdownKey, hc1]; rfl
    rw [get_or_create_fresh_of_shutdown et mw p3 _ _ hc2 rfl] at h3
    injection h3 with he hrest
    injection hrest with hw hs3
    subst he
    subst hs3
    exact ⟨rfl, ne_of_gt hid1, rfl, cacheGet_cacheSet_self _ _ _⟩
  · intro e4 w4 s4 h4
    rw [get_or_create_fresh_of_none et mw p4 _
      (cacheGet_reclaimKey (et, mw) s1)] at h4
    injection h4 with he hrest
    injection hrest with hw hs4
    subst he
    subst hs4
    exact ⟨rfl, ne_of_gt hid1, cacheGet_cacheSet_self _ _ _⟩

/-- Claim C7 witness: with an empty registry, a first call creates and
caches an executor and an immediately following call with the same key
returns the same instance unchanged. -/
theorem C7_witness :
    get_or_create_executor ExecutorType.thread 4 false
      ⟨[((ExecutorType.thread, 4), ⟨0, 4, false⟩)], 1⟩ =
    (⟨0, 4, false⟩, 0, ⟨[((ExecutorType.thread, 4), ⟨0, 4, false⟩)], 1⟩) :=
  (C7_pool_reuse ExecutorType.thread 4 true false true true ⟨[], 0⟩
    (fun q hq => absurd hq (List.not_mem_nil q)) ⟨0, 4, false⟩ 4
    ⟨[((ExecutorType.thread, 4), ⟨0, 4, false⟩)], 1⟩ rfl).1

/-- Claim C8: when `get_or_create_executor` creates an executor (no cached
entry, or a shut-down one) with `prewarm = true`, it submits exactly
`max_workers` no-op tasks and waits on each of them before returning (the
returned count is of completed warm-up tasks); creating without prewarm
submits none, and returning a live cached executor submits none whatever
the `prewarm` argument. -/
theorem C8_prewarm_tasks (et : ExecutorType) (mw : Nat) (s : RegistryState) :
    (cacheGet (et, mw) s.cache = none →
      (get_or_create_executor et mw true s).2.1 = mw ∧
      (get_or_create_executor et mw false s).2.1 = 0) ∧
    (∀ e, cacheGet (et, mw) s.cache = some e → e.shutdownFlag = true →
      (get_or_create_executor et mw true s).2.1 = mw ∧
      (get_or_create_executor et mw false s).2.1 = 0) ∧
    (∀ e p, cacheGet (et, mw) s.cache = some e → e.shutdownFlag = false →
      (get_or_create_executor et mw p s).2.1 = 0) := by
  refine ⟨fun hc => ?_, fun e hc hf => ?_, fun e p hc hf => ?_⟩
  · rw [get_or_create_fresh_of_none et mw true s hc,
      get_or_create_fresh_of_none et mw false s hc]
    exact ⟨rfl, rfl⟩
  · rw [get_or_create_fresh_of_shutdown et mw true s e hc hf,
      get_or_create_fresh_of_shutdown et mw false s e hc hf]
    exact ⟨rfl, rfl⟩
  · rw [get_or_create_cached et mw p s e hc hf]

/-- Claim C8 witness: creating on an empty registry with prewarm submits
exactly four warm-up tasks; without prewarm none. -/
theorem C8_witness :
    (get_or_create_executor ExecutorType.thread 4 true ⟨[], 0⟩).2.1 = 4 ∧
    (get_or_create_executor ExecutorType.thread 4 false ⟨[], 0⟩).2.1 = 0 :=
  (C8_prewarm_tasks ExecutorType.thread 4 ⟨[], 0⟩).1 rfl

/-! ### Dispatcher lemmas -/

lemma awaitFutures_allOk {ε : Type} (futs : List (Nat × Except ε PyVal))
    (slots : List PyVal) (h : ∀ p ∈ futs, ∃ v, p.2 = Except.ok v) :
    awaitFutures futs slots = .ok (fillSlots futs slots) := by
  induction futs generalizing slots with
  | nil => rfl
  | cons q rest ih =>
    rcases q with ⟨i, r⟩
    obtain ⟨v, hv⟩ := h (i, r) (List.mem_cons_self _ _)
    subst hv
    show awaitFutures rest (slots.set i v) = _
    rw [ih _ fun p hp => h p (List.mem_cons_of_mem _ hp)]
    rfl

lemma fillSlots_length {ε : Type} (futs : List (Nat × Except ε PyVal))
    (slots : List PyVal) : (fillSlots futs slots).length = slots.length := by
  induction futs generalizing slots with
  | nil => rfl
  | cons q rest ih =>
    show (fillSlots rest _).length = _
    rw [ih, List.length_set]

lemma fillSlots_not_mem {ε : Type} (futs : List (Nat × Except ε PyVal))
    (slots : List PyVal) (j : Nat) (h : j ∉ futs.map Prod.fst) :
    (fillSlots futs slots)[j]? = slots[j]? := by
  induction futs generalizing slots with
  | nil => rfl
  | cons q rest ih =>
    rw [List.map_cons, List.mem_cons] at h
    push_neg at h
    show (fillSlots rest (slots.set q.1 (okVal q.2)))[j]? = _
    rw [ih _ h.2, List.getElem?_set, if_neg fun hq => h.1 hq.symm]

lemma fillSlots_mem {ε : Type} (futs : List (Nat × Except ε PyVal))
    (slots : List PyVal) (j : Nat) (r : Except ε PyVal)
    (hnd : (futs.map Prod.fst).Nodup) (hmem : (j, r) ∈ futs)
    (hj : j < slots.length) :
    (fillSlots futs slots)[j]? = some (okVal r) := by
  induction futs generalizing slots with
  | nil => exact absurd hmem (List.not_mem_nil _)
  | cons q rest ih =>
    rcases q with ⟨qi, qr⟩
    rw [List.map_cons, List.nodup_cons] at hnd
    rcases List.mem_cons.mp hmem with h | h
    · obtain ⟨h1, h2⟩ := Prod.mk.injEq .. ▸ h
      subst h1
      subst h2
      show (fillSlots rest (slots.set j (okVal r)))[j]? = _
      rw [fillSlots_not_mem rest _ j hnd.1, List.getElem?_set, if_pos rfl,
        if_pos hj]
    · show (fillSlots rest (slots.set qi (okVal qr)))[j]? = _
      rw [ih _ hnd.2 h (by rw [List.length_set]; exact hj)]

lemma awaitFutures_perm_enum {ε : Type} (g : PyVal → PyVal) (xs : List PyVal)
    (futs : List (Nat × Except ε PyVal))
    (hperm : futs.Perm
      (xs.enum.map fun p => ((p.1, Except.ok (g p.2)) : Nat × Except ε PyVal))) :
    awaitFutures futs (List.replicate xs.length PyVal.none) =
      .ok (xs.map g) := by
  have hok : ∀ p ∈ futs, ∃ v, p.2 = Except.ok v := by
    intro p hp
    obtain ⟨q, _, hqe⟩ := List.mem_map.mp (hperm.mem_iff.mp hp)
    exact ⟨g q.2, by rw [← hqe]⟩
  rw [awaitFutures_allOk _ _ hok]
  congr 1
  have hbase : ((xs.enum.map fun p =>
      ((p.1, Except.ok (g p.2)) : Nat × Except ε PyVal)).map Prod.fst) =
      List.range xs.length := by
    rw [List.map_map]
    exact List.enum_map_fst xs
  have hkeys : (futs.map Prod.fst).Nodup := by
    rw [(hperm.map Prod.fst).nodup_iff, hbase]
    exact List.nodup_range _
  apply List.ext_getElem?
  intro j
  by_cases hj : j < xs.length
  · have hje : j < xs.enum.length := by rw [List.enum_length]; exact hj
    have henum : xs.enum.get ⟨j, hje⟩ = (j, xs.get ⟨j, hj⟩) :=
      List.getElem_enum xs j hje
    have hmem_base : ((j, Except.ok (g (xs.get ⟨j, hj⟩))) :
        Nat × Except ε PyVal) ∈
        xs.enum.map fun p => (p.1, Except.ok (g p.2)) :=
      List.mem_map.mpr ⟨(j, xs.get ⟨j, hj⟩),
        henum ▸ List.getElem_mem hje, rfl⟩
    rw [fillSlots_mem futs _ j _ hkeys (hperm.mem_iff.mpr hmem_base)
      (by rw [List.length_replicate]; exact hj),
      List.getElem?_map, List.getElem?_eq_getElem hj]
    rfl
  · rw [List.getElem?_eq_none, List.getElem?_eq_none]
    · rw [List.length_map]
      exact Nat.le_of_not_lt hj
    · rw [fillSlots_length, List.length_replicate]
      exact Nat.le_of_not_lt hj

lemma awaitFutures_error_at {ε : Type} (futs : List (Nat × Except ε PyVal))
    (slots : List PyVal) (i : Nat) (hi : i < futs.length) (e : ε)
    (he : (futs.get ⟨i, hi⟩).2 = .error e)
    (hpre : ∀ j (hj : j < i),
      ∃ v, (futs.get ⟨j, hj.trans hi⟩).2 = Except.ok v) :
    awaitFutures futs slots = .error e := by
  induction futs generalizing slots i with
  | nil => exact absurd hi (Nat.not_lt_zero _)
  | cons q rest ih =>
    rcases q with ⟨k, r⟩
    cases i with
    | zero =>
      have hr : r = Except.error e := he
      subst hr
      rfl
    | succ n =>
      obtain ⟨v, hv⟩ := hpre 0 (Nat.succ_pos _)
      have hr : r = Except.ok v := hv
      subst hr
      show awaitFutures rest (slots.set k v) = .error e
      exact ih _ n (Nat.lt_of_succ_lt_succ hi) he
        (fun j hj => hpre (j + 1) (Nat.succ_lt_succ hj))

/-- Computation rule for the batch path of the wrapper on a list
argument. -/
lemma wrapper_batch_list {κ ε : Type}
    (func : PyVal → List PyVal → κ → Except ε PyVal) (hasRL : Bool)
    (xs other : List PyVal) (kw : κ) :
    wrapper func hasRL (.list xs) other kw =
      (match awaitFutures (xs.enum.map fun p => (p.1, func p.2 other kw))
          (List.replicate xs.length PyVal.none) with
        | .error e => (.error e, ⟨xs.length, 0, if hasRL then xs.length else 0⟩)
        | .ok results =>
          (.ok (.list results), ⟨xs.length, 0, if hasRL then xs.length else 0⟩)) :=
  rfl

/-- Computation rule for the batch path of the wrapper on a tuple
argument. -/
lemma wrapper_batch_tuple {κ ε : Type}
    (func : PyVal → List PyVal → κ → Except ε PyVal) (hasRL : Bool)
    (xs other : List PyVal) (kw : κ) :
    wrapper func hasRL (.tuple xs) other kw =
      (match awaitFutures (xs.enum.map fun p => (p.1, func p.2 other kw))
          (List.replicate xs.length PyVal.none) with
        | .error e => (.error e, ⟨xs.length, 0, if hasRL then xs.length else 0⟩)
        | .ok results =>
          (.ok (.list results), ⟨xs.length, 0, if hasRL then xs.length else 0⟩)) :=
  rfl

/-! ### Claim theorems about the wrapper -/

/-- Claim C1: for a non-empty list or tuple input on which `func` succeeds
everywhere, the wrapper returns a sequence of the same length whose
element at every index `i` is `func` applied to `xs[i]` with the extra
positional arguments and keyword arguments passed unchanged; and the
result of the collection phase is the same for every completion order
(any permutation of the index-tagged futures fills the pre-sized slot
list identically). -/
theorem C1_ordered_results {κ ε : Type}
    (func : PyVal → List PyVal → κ → Except ε PyVal) (hasRL : Bool)
    (xs other : List PyVal) (kw : κ) (g : PyVal → PyVal) (hne : xs ≠ [])
    (hok : ∀ x ∈ xs, func x other kw = Except.ok (g x)) :
    (wrapper func hasRL (.list xs) other kw).1 = .ok (.list (xs.map g)) ∧
    (wrapper func hasRL (.tuple xs) other kw).1 = .ok (.list (xs.map g)) ∧
    (xs.map g).length = xs.length ∧
    (∀ i (hi : i < xs.length),
      (xs.map g)[i]? = some (g (xs.get ⟨i, hi⟩))) ∧
    (∀ futs, futs.Perm (xs.enum.map fun p => (p.1, func p.2 other kw)) →
      awaitFutures futs (List.replicate xs.length PyVal.none) =
        .ok (xs.map g)) := by
  have hfut : (xs.enum.map fun p =>
      ((p.1, func p.2 other kw) : Nat × Except ε PyVal)) =
      xs.enum.map fun p => (p.1, Except.ok (g p.2)) := by
    apply List.map_congr_left
    intro p hp
    rcases p with ⟨i, x⟩
    rw [List.mk_mem_enum_iff_getElem?] at hp
    have hx : x ∈ xs := by
      rcases List.getElem?_eq_some_iff.mp hp with ⟨h, hget⟩
      exact hget ▸ List.getElem_mem h
    rw [hok x hx]
  have hawait : awaitFutures
      (xs.enum.map fun p => ((p.1, func p.2 other kw) : Nat × Except ε PyVal))
      (List.replicate xs.length PyVal.none) = .ok (xs.map g) := by
    rw [hfut]
    exact awaitFutures_perm_enum g xs _ (List.Perm.refl _)
  refine ⟨?_, ?_, List.length_map xs g, ?_, ?_⟩
  · rw [wrapper_batch_list, hawait]
  · rw [wrapper_batch_tuple, hawait]
  · intro i hi
    rw [List.getElem?_map, List.getElem?_eq_getElem hi]
    rfl
  · intro futs hperm
    rw [hfut] at hperm
    exact awaitFutures_perm_enum g xs futs hperm

/-- Claim C1 witness: a two-element list is mapped in order by a concrete
function. -/
theorem C1_witness :
    (wrapper (fun x _ _ => (Except.ok x : Except Unit PyVal)) true
      (.list [.int 1, .int 2]) [] ()).1 =
      .ok (.list [.int 1, .int 2]) :=
  (C1_ordered_results (fun x _ _ => Except.ok x) true [.int 1, .int 2] [] ()
    (fun x => x) (List.cons_ne_nil _ _) (fun _ _ => rfl)).1

/-- Claim C2: an input that is not a list or tuple — strings and bytes
included — takes the single-item path: the wrapper calls `func` directly
(one direct call, zero tasks submitted to the pool, zero rate-limiter
waits) and returns the one-element list of its result. -/
theorem C2_single_item {κ ε : Type}
    (func : PyVal → List PyVal → κ → Except ε PyVal) (hasRL : Bool)
    (x : PyVal) (other : List PyVal) (kw : κ) (v : PyVal)
    (hx : x.isListOrTuple = false) (hv : func x other kw = Except.ok v) :
    wrapper func hasRL x other kw = (.ok (.list [v]), ⟨0, 1, 0⟩) ∧
    (∀ s, (PyVal.str s).isListOrTuple = false) ∧
    (∀ bs, (PyVal.bytes bs).isListOrTuple = false) := by
  refine ⟨?_, fun _ => rfl, fun _ => rfl⟩
  unfold wrapper
  rw [if_pos hx, hv]

/-- Claim C2 witness: a string argument is processed directly and wrapped
in a one-element list. -/
theorem C2_witness :
    wrapper (fun x _ _ => (Except.ok x : Except Unit PyVal)) true
      (.str "a") [] () = (.ok (.list [.str "a"]), ⟨0, 1, 0⟩) :=
  (C2_single_item (fun x _ _ => Except.ok x) true (.str "a") [] ()
    (.str "a") rfl rfl).1

/-- Claim C4: if `func` fails on some item of a list input (with `i` the
first failing index in submission order), the whole batch call propagates
that failure and no result sequence — in particular no partially filled
one — is returned as a success. -/
theorem C4_batch_failure_propagates {κ ε : Type}
    (func : PyVal → List PyVal → κ → Except ε PyVal) (hasRL : Bool)
    (xs other : List PyVal) (kw : κ) (i : Nat) (e : ε)
    (hi : i < xs.length)
    (hfail : func (xs.get ⟨i, hi⟩) other kw = .error e)
    (hpre : ∀ j (hj : j < i),
      ∃ v, func (xs.get ⟨j, hj.trans hi⟩) other kw = Except.ok v) :
    (wrapper func hasRL (.list xs) other kw).1 = .error e ∧
    ∀ rs, (wrapper func hasRL (.list xs) other kw).1 ≠ .ok rs := by
  have hlen : (xs.enum.map fun p =>
      ((p.1, func p.2 other kw) : Nat × Except ε PyVal)).length =
      xs.length := by
    rw [List.length_map, List.enum_length]
  have hget : ∀ j (hj : j < xs.length),
      (xs.enum.map fun p =>
        ((p.1, func p.2 other kw) : Nat × Except ε PyVal)).get
        ⟨j, by rw [hlen]; exact hj⟩ =
      (j, func (xs.get ⟨j, hj⟩) other kw) := by
    intro j hj
    have hje : j < xs.enum.length := by rw [List.enum_length]; exact hj
    show (xs.enum.map fun p => (p.1, func p.2 other kw))[j] = _
    rw [List.getElem_map, List.getElem_enum]
    rfl
  have hawait : awaitFutures
      (xs.enum.map fun p => ((p.1, func p.2 other kw) : Nat × Except ε PyVal))
      (List.replicate xs.length PyVal.none) = .error e := by
    apply awaitFutures_error_at _ _ i (by rw [hlen]; exact hi) e
    · rw [hget i hi]
      exact hfail
    · intro j hj
      rw [hget j (hj.trans hi)]
      exact hpre j hj
  constructor
  · rw [wrapper_batch_list, hawait]
  · intro rs h
    rw [wrapper_batch_list, hawait] at h
    exact Except.noConfusion h

/-- Claim C4 witness: a batch whose second item raises fails as a whole
with that exception. -/
theorem C4_witness :
    (wrapper
      (fun x _ _ => match x with
        | PyVal.none => Except.error ()
        | y => Except.ok y)
      false (.list [.int 1, .none]) [] ()).1 = .error () :=
  (C4_batch_failure_propagates
    (fun x _ _ => match x with
      | PyVal.none => Except.error ()
      | y => Except.ok y)
    false [.int 1, .none] [] () 1 () (by norm_num) rfl
    (fun j hj => by
      cases j with
      | zero => exact ⟨.int 1, rfl⟩
      | succ n => omega)).1

/-- Claim C9: the empty list and the empty tuple take the batch path but
produce the empty result list with zero tasks submitted, zero direct
calls of the wrapped function, and zero rate-limiter waits, whether or
not a rate limit is configured. -/
theorem C9_empty_input {κ ε : Type}
    (func : PyVal → List PyVal → κ → Except ε PyVal) (hasRL : Bool)
    (other : List PyVal) (kw : κ) :
    wrapper func hasRL (.list []) other kw = (.ok (.list []), ⟨0, 0, 0⟩) ∧
    wrapper func hasRL (.tuple []) other kw = (.ok (.list []), ⟨0, 0, 0⟩) := by
  cases hasRL <;> exact ⟨rfl, rfl⟩

end Pyarallel
